import Mathlib

/-!
Verification of the technical-analysis signal engine of
`bc_technical_analysis.py` (quant repository).

The Python source operates on pandas dataframes; here each dataframe
column is a `List ℚ` (or `List (Option ℚ)` when the column can hold NaN),
and each OHLCV row is a `Bar`.  Every definition below is a direct
translation of the corresponding Python function, keeping its name where
Lean allows it.  Definitions whose name starts with `spec_` instead follow
the natural-language specification text and exist only to be compared
against the source-derived definitions.
-/

/-- Trend label: the Python strings `u` / `d` / `n`. -/
inductive Trend where
  | u : Trend
  | d : Trend
  | n : Trend
deriving DecidableEq, Repr

/-- Signal label: the Python strings `b` / `s` / `n` and the empty string
(the source initialises the signal column with the empty string, which is
distinct from the none-signal `n`). -/
inductive Sig where
  | b : Sig
  | s : Sig
  | n : Sig
  | e : Sig
deriving DecidableEq, Repr

/-- One step of `sda` (bc_technical_analysis.py, lines 1399-1461).
`p` is the accumulated value stored at the previous row (the Python loop
mutates the series in place, so the previous value it reads is the already
accumulated one), `c` is the raw value at the current row.

Python:
  if current_val * previous_val > 0:
    if one_restart and current_val in [1, -1]: keep current_val
    else: current_val + previous_val
  elif current_val == 0 and previous_val != 0:
    if zero_as is not None: previous_val plus-or-minus zero_as (by sign of previous)
  else: pass (keep current_val)
-/
def sdaStep (zeroAs : Option ℚ) (oneRestart : Bool) (p c : ℚ) : ℚ :=
  if c * p > 0 then
    if oneRestart ∧ (c = 1 ∨ c = -1) then c else c + p
  else if c = 0 ∧ p ≠ 0 then
    match zeroAs with
    | some z => if p > 0 then p + z else p - z
    | none => c
  else c

/-- Tail of the `sda` scan: `p` is the accumulated value at the previous
row, the head of `xs` is the next raw value. -/
def sdaAux (zeroAs : Option ℚ) (oneRestart : Bool) (p : ℚ) : List ℚ → List ℚ
  | [] => []
  | c :: rest =>
      let v := sdaStep zeroAs oneRestart p c
      v :: sdaAux zeroAs oneRestart v rest

/-- `sda(series, zero_as, one_restart)` (bc_technical_analysis.py,
lines 1399-1461): same-direction accumulation.  The first row is left
unchanged; every later row is rewritten by `sdaStep` reading the already
rewritten previous row. -/
def sda (zeroAs : Option ℚ) (oneRestart : Bool) : List ℚ → List ℚ
  | [] => []
  | x :: rest => x :: sdaAux zeroAs oneRestart x rest

/-- Sign of a rational, valued in {-1, 0, 1}. -/
def sgn (q : ℚ) : ℤ :=
  if 0 < q then 1 else if q < 0 then -1 else 0

theorem sgn_pos {q : ℚ} (h : 0 < q) : sgn q = 1 := by simp [sgn, h]

theorem sgn_neg {q : ℚ} (h : q < 0) : sgn q = -1 := by
  simp [sgn, h, not_lt.mpr (le_of_lt h)]

theorem sdaAux_length (zeroAs : Option ℚ) (oneRestart : Bool) (p : ℚ)
    (xs : List ℚ) : (sdaAux zeroAs oneRestart p xs).length = xs.length := by
  induction xs generalizing p with
  | nil => rfl
  | cons c rest ih => simp [sdaAux, ih]

theorem sda_length (zeroAs : Option ℚ) (oneRestart : Bool) (xs : List ℚ) :
    (sda zeroAs oneRestart xs).length = xs.length := by
  cases xs with
  | nil => rfl
  | cons x rest => simp [sda, sdaAux_length]

theorem sgn_sdaStep (zeroAs : Option ℚ) (oneRestart : Bool) (p c : ℚ)
    (hc : c ≠ 0) : sgn (sdaStep zeroAs oneRestart p c) = sgn c := by
  unfold sdaStep
  by_cases hmul : c * p > 0
  · simp only [hmul, if_pos]
    by_cases hone : oneRestart ∧ (c = 1 ∨ c = -1)
    · simp [hone]
    · simp only [hone, if_neg, if_false]
      rcases lt_trichotomy c 0 with hneg | hz | hpos
      · have hp : p < 0 := by
          rcases lt_trichotomy p 0 with h | h | h
          · exact h
          · exfalso; rw [h, mul_zero] at hmul; exact lt_irrefl 0 hmul
          · exfalso
            have : c * p < 0 := mul_neg_of_neg_of_pos hneg h
            linarith
        have hsum : c + p < 0 := by linarith
        simp [sgn, hsum, not_lt.mpr (le_of_lt hsum), hneg,
          not_lt.mpr (le_of_lt hneg)]
      · exact absurd hz hc
      · have hp : 0 < p := by
          rcases lt_trichotomy p 0 with h | h | h
          · exfalso
            have : c * p < 0 := mul_neg_of_pos_of_neg hpos h
            linarith
          · exfalso; rw [h, mul_zero] at hmul; exact lt_irrefl 0 hmul
          · exact h
        have hsum : 0 < c + p := by linarith
        simp [sgn, hsum, hpos]
  · simp only [hmul, if_neg, if_false]
    have : ¬(c = 0 ∧ p ≠ 0) := fun h => hc h.1
    simp [this]

theorem sdaAux_get_sgn (zeroAs : Option ℚ) (oneRestart : Bool)
    (xs : List ℚ) : ∀ (p : ℚ) (i : ℕ) (h : i < xs.length),
    xs.get ⟨i, h⟩ ≠ 0 →
    sgn ((sdaAux zeroAs oneRestart p xs).get
      ⟨i, by rw [sdaAux_length]; exact h⟩) = sgn (xs.get ⟨i, h⟩) := by
  induction xs with
  | nil => intro p i h; exact absurd h (Nat.not_lt_zero i)
  | cons c rest ih =>
      intro p i h hne
      cases i with
      | zero =>
          simpa [sdaAux] using sgn_sdaStep zeroAs oneRestart p c (by simpa using hne)
      | succ j =>
          have hj : j < rest.length := Nat.lt_of_succ_lt_succ h
          simpa [sdaAux] using
            ih (sdaStep zeroAs oneRestart p c) j hj (by simpa using hne)

/-- C8: whenever the raw series value is nonzero, the accumulated value
produced by `sda` has the same sign, for every `zero_as` and
`one_restart` setting. -/
theorem sda_sign_preserved (zeroAs : Option ℚ) (oneRestart : Bool)
    (xs : List ℚ) (i : ℕ) (h : i < xs.length)
    (hne : xs.get ⟨i, h⟩ ≠ 0) :
    sgn ((sda zeroAs oneRestart xs).get
      ⟨i, by rw [sda_length]; exact h⟩) = sgn (xs.get ⟨i, h⟩) := by
  cases xs with
  | nil => exact absurd h (Nat.not_lt_zero i)
  | cons x rest =>
      cases i with
      | zero => simp [sda]
      | succ j =>
          have hj : j < rest.length := Nat.lt_of_succ_lt_succ h
          simpa [sda] using
            sdaAux_get_sgn zeroAs oneRestart rest x j hj (by simpa using hne)

/-- Witness for C8 at the concrete series [2, 3, -1], zero_as = 1,
one_restart = false, position 2. -/
theorem sda_sign_preserved_witness :
    sgn ((sda (some 1) false [2, 3, -1]).get ⟨2, by simp [sda_length]⟩) =
      sgn (([2, 3, -1] : List ℚ).get ⟨2, by simp⟩) :=
  sda_sign_preserved (some 1) false [2, 3, -1] 2 (by simp) (by norm_num)

theorem sdaAux_get_succ (zeroAs : Option ℚ) (oneRestart : Bool)
    (xs : List ℚ) : ∀ (p : ℚ) (i : ℕ) (h : i + 1 < xs.length),
    (sdaAux zeroAs oneRestart p xs).get
        ⟨i + 1, by rw [sdaAux_length]; exact h⟩ =
      sdaStep zeroAs oneRestart
        ((sdaAux zeroAs oneRestart p xs).get
          ⟨i, by rw [sdaAux_length]; omega⟩)
        (xs.get ⟨i + 1, h⟩) := by
  induction xs with
  | nil => intro p i h; simp at h
  | cons c rest ih =>
      intro p i h
      cases i with
      | zero =>
          cases rest with
          | nil => simp at h
          | cons d rest2 => simp [sdaAux]
      | succ j =>
          have hj : j + 1 < rest.length := by simpa using h
          simpa [sdaAux] using ih (sdaStep zeroAs oneRestart p c) j hj

theorem sda_get_succ (zeroAs : Option ℚ) (oneRestart : Bool)
    (xs : List ℚ) (i : ℕ) (h : i + 1 < xs.length) :
    (sda zeroAs oneRestart xs).get
        ⟨i + 1, by rw [sda_length]; exact h⟩ =
      sdaStep zeroAs oneRestart
        ((sda zeroAs oneRestart xs).get ⟨i, by rw [sda_length]; omega⟩)
        (xs.get ⟨i + 1, h⟩) := by
  cases xs with
  | nil => simp at h
  | cons x rest =>
      cases i with
      | zero =>
          cases rest with
          | nil => simp at h
          | cons d rest2 => simp [sda, sdaAux]
      | succ j =>
          have hj : j + 1 < rest.length := by simpa using h
          simpa [sda] using sdaAux_get_succ zeroAs oneRestart rest x j hj

theorem abs_sdaStep_ge (p c : ℚ)
    (hsgn : sgn (sdaStep (some 1) false p c) = sgn p) :
    |p| ≤ |sdaStep (some 1) false p c| := by
  unfold sdaStep at hsgn ⊢
  by_cases hmul : c * p > 0
  · rw [if_pos hmul, if_neg (by simp)] at hsgn ⊢
    rcases mul_pos_iff.mp hmul with ⟨hc, hp⟩ | ⟨hc, hp⟩
    · rw [abs_of_pos hp, abs_of_pos (by linarith : (0:ℚ) < c + p)]
      linarith
    · rw [abs_of_neg hp, abs_of_neg (by linarith : c + p < 0)]
      linarith
  · rw [if_neg hmul] at hsgn ⊢
    by_cases hzero : c = 0 ∧ p ≠ 0
    · rw [if_pos hzero] at hsgn ⊢
      have hred : (match (some 1 : Option ℚ) with
          | some z => if p > 0 then p + z else p - z
          | none => c) = if p > 0 then p + 1 else p - 1 := rfl
      rw [hred] at hsgn ⊢
      rcases lt_or_gt_of_ne hzero.2 with hp | hp
      · rw [if_neg (not_lt.mpr (le_of_lt hp))] at hsgn ⊢
        rw [abs_of_neg hp, abs_of_neg (by linarith : p - 1 < 0)]
        linarith
      · rw [if_pos hp] at hsgn ⊢
        rw [abs_of_pos hp, abs_of_pos (by linarith : (0:ℚ) < p + 1)]
        linarith
    · rw [if_neg hzero] at hsgn ⊢
      by_cases hp : p = 0
      · subst hp; simpa using abs_nonneg c
      · exfalso
        have hc : c ≠ 0 := fun h => hzero ⟨h, hp⟩
        rcases lt_or_gt_of_ne hp with h1 | h1 <;>
          rcases lt_or_gt_of_ne hc with h2 | h2
        · exact hmul (mul_pos_of_neg_of_neg h2 h1)
        · rw [sgn_pos h2, sgn_neg h1] at hsgn; norm_num at hsgn
        · rw [sgn_neg h2, sgn_pos h1] at hsgn; norm_num at hsgn
        · exact hmul (mul_pos h2 h1)

theorem sdaStep_flip_eq_raw (p c : ℚ) (hp : p ≠ 0)
    (hflip : sgn (sdaStep (some 1) false p c) ≠ sgn p) :
    sdaStep (some 1) false p c = c := by
  unfold sdaStep at hflip ⊢
  by_cases hmul : c * p > 0
  · exfalso
    rw [if_pos hmul, if_neg (by simp)] at hflip
    rcases mul_pos_iff.mp hmul with ⟨hc, hp2⟩ | ⟨hc, hp2⟩
    · rw [sgn_pos hp2, sgn_pos (by linarith : (0:ℚ) < c + p)] at hflip
      exact hflip rfl
    · rw [sgn_neg hp2, sgn_neg (by linarith : c + p < 0)] at hflip
      exact hflip rfl
  · rw [if_neg hmul] at hflip ⊢
    by_cases hzero : c = 0 ∧ p ≠ 0
    · exfalso
      rw [if_pos hzero] at hflip
      have hred : (match (some 1 : Option ℚ) with
          | some z => if p > 0 then p + z else p - z
          | none => c) = if p > 0 then p + 1 else p - 1 := rfl
      rw [hred] at hflip
      rcases lt_or_gt_of_ne hzero.2 with hp2 | hp2
      · rw [if_neg (not_lt.mpr (le_of_lt hp2)), sgn_neg hp2,
          sgn_neg (by linarith : p - 1 < 0)] at hflip
        exact hflip rfl
      · rw [if_pos hp2, sgn_pos hp2,
          sgn_pos (by linarith : (0:ℚ) < p + 1)] at hflip
        exact hflip rfl
    · rw [if_neg hzero]

/-- C9 (amended): for the day-counter transform actually used for the
non-`bb` indicator day columns, `sda(series, zero_as=1)` with
`one_restart = false`, the accumulated magnitude never shrinks while the
sign stays the same, and on a sign flip the output is the raw series
value (which is plus-or-minus 1 for trend-label inputs). -/
theorem sda_day_counter_invariant (xs : List ℚ) (i : ℕ)
    (h : i + 1 < xs.length) :
    (sgn ((sda (some 1) false xs).get ⟨i + 1, by rw [sda_length]; exact h⟩) =
        sgn ((sda (some 1) false xs).get ⟨i, by rw [sda_length]; omega⟩) →
      |(sda (some 1) false xs).get ⟨i, by rw [sda_length]; omega⟩| ≤
        |(sda (some 1) false xs).get ⟨i + 1, by rw [sda_length]; exact h⟩|) ∧
    ((sda (some 1) false xs).get ⟨i, by rw [sda_length]; omega⟩ ≠ 0 →
      sgn ((sda (some 1) false xs).get ⟨i + 1, by rw [sda_length]; exact h⟩) ≠
        sgn ((sda (some 1) false xs).get ⟨i, by rw [sda_length]; omega⟩) →
      (sda (some 1) false xs).get ⟨i + 1, by rw [sda_length]; exact h⟩ =
        xs.get ⟨i + 1, h⟩) := by
  constructor
  · intro hsgn
    rw [sda_get_succ (some 1) false xs i h] at hsgn ⊢
    exact abs_sdaStep_ge _ _ hsgn
  · intro hp hflip
    rw [sda_get_succ (some 1) false xs i h] at hflip ⊢
    exact sdaStep_flip_eq_raw _ _ hp hflip

/-- Witness for C9 (amended) at the series [1, 1, -1] (labels u, u, d),
position 1 → 2: sign flips, so the counter resets to the raw value -1. -/
theorem sda_day_counter_invariant_witness :
    (sgn ((sda (some 1) false [1, 1, -1]).get ⟨2, by simp [sda_length]⟩) =
        sgn ((sda (some 1) false [1, 1, -1]).get ⟨1, by simp [sda_length]⟩) →
      |(sda (some 1) false [1, 1, -1]).get ⟨1, by simp [sda_length]⟩| ≤
        |(sda (some 1) false [1, 1, -1]).get ⟨2, by simp [sda_length]⟩|) ∧
    ((sda (some 1) false [1, 1, -1]).get ⟨1, by simp [sda_length]⟩ ≠ 0 →
      sgn ((sda (some 1) false [1, 1, -1]).get ⟨2, by simp [sda_length]⟩) ≠
        sgn ((sda (some 1) false [1, 1, -1]).get ⟨1, by simp [sda_length]⟩) →
      (sda (some 1) false [1, 1, -1]).get ⟨2, by simp [sda_length]⟩ =
        ([1, 1, -1] : List ℚ).get ⟨2, by simp⟩) :=
  sda_day_counter_invariant [1, 1, -1] 1 (by simp)

/-- C9 counterexample: with `one_restart = true` (used for the `bb`
indicator and candle-pattern day columns), the trend-label series
u, n, u (mapped to 1, 0, 1) yields day counters [1, 2, 1]: at position 2
the sign is unchanged but the magnitude shrinks from 2 to 1, refuting the
claimed invariant for the one_restart variant. -/
theorem sda_day_counter_magnitude_cex :
    sda (some 1) true [1, 0, 1] = [1, 2, 1] ∧
    sgn (2 : ℚ) = sgn (1 : ℚ) ∧ |(1 : ℚ)| < |(2 : ℚ)| := by
  refine ⟨?_, by norm_num [sgn], by norm_num⟩
  norm_num [sda, sdaAux, sdaStep]

/-- The `keep` policy of `remove_redundant_signal`. -/
inductive Keep where
  | first : Keep
  | last : Keep
deriving DecidableEq, Repr

/-- Scan underlying `remove_redundant_signal` (bc_technical_analysis.py,
lines 1726-1754) for `keep = first`.  The source filters the non-none
rows, concatenates each with its predecessor in the filtered frame
(`shift(1)`), and blanks the rows whose concatenation reads `bb` or `ss`.
Row by row that is: a non-none signal is blanked exactly when the nearest
preceding non-none signal (carried here as `p`) equals it and it is the
positive or the negative signal value. -/
def removeRedundantAux (p : Option Sig) : List Sig → List Sig
  | [] => []
  | x :: rest =>
      if x = Sig.n then Sig.n :: removeRedundantAux p rest
      else if p = some x ∧ (x = Sig.b ∨ x = Sig.s) then
        Sig.n :: removeRedundantAux (some x) rest
      else x :: removeRedundantAux (some x) rest

/-- `remove_redundant_signal(df, signal_col, pos_signal=b, neg_signal=s,
none_signal=n, keep)` (bc_technical_analysis.py, lines 1726-1754).
For `keep = last` the source compares each non-none row with the nearest
following non-none row (`shift(-1)`); scanning the reversed column with
the `keep = first` comparison and reversing back is that same
comparison. -/
def remove_redundant_signal (keep : Keep) (xs : List Sig) : List Sig :=
  match keep with
  | Keep.first => removeRedundantAux none xs
  | Keep.last => (removeRedundantAux none xs.reverse).reverse

theorem removeRedundantAux_chain (xs : List Sig) : ∀ (p : Option Sig),
    (∀ x ∈ xs, x ≠ Sig.e) →
    List.Chain' (· ≠ ·) ((removeRedundantAux p xs).filter (· ≠ Sig.n)) ∧
    (∀ y, ((removeRedundantAux p xs).filter (· ≠ Sig.n)).head? = some y →
      p ≠ some y) := by
  induction xs with
  | nil => intro p _; simp [removeRedundantAux]
  | cons x rest ih =>
      intro p hx
      have hrest : ∀ z ∈ rest, z ≠ Sig.e := fun z hz => hx z (by simp [hz])
      by_cases hn : x = Sig.n
      · subst hn
        simpa [removeRedundantAux] using ih p hrest
      · have hbs : x = Sig.b ∨ x = Sig.s := by
          have hxe : x ≠ Sig.e := hx x (by simp)
          cases x with
          | b => exact Or.inl rfl
          | s => exact Or.inr rfl
          | n => exact absurd rfl hn
          | e => exact absurd rfl hxe
        by_cases hdup : p = some x
        · have hcond : p = some x ∧ (x = Sig.b ∨ x = Sig.s) := ⟨hdup, hbs⟩
          rcases ih (some x) hrest with ⟨ihc, ihh⟩
          refine ⟨?_, ?_⟩
          · simpa [removeRedundantAux, hn, hcond] using ihc
          · intro y hy
            rw [hdup]
            exact ihh y (by simpa [removeRedundantAux, hn, hcond] using hy)
        · have hcond : ¬(p = some x ∧ (x = Sig.b ∨ x = Sig.s)) :=
            fun h => hdup h.1
          rcases ih (some x) hrest with ⟨ihc, ihh⟩
          have hout : (removeRedundantAux p (x :: rest)).filter (· ≠ Sig.n) =
              x :: (removeRedundantAux (some x) rest).filter (· ≠ Sig.n) := by
            simp [removeRedundantAux, hn, hcond]
          refine ⟨?_, ?_⟩
          · rw [hout, List.chain'_cons']
            refine ⟨?_, ihc⟩
            intro y hy
            have hne : some x ≠ some y := ihh y hy
            intro hxy
            exact hne (by rw [hxy])
          · intro y hy
            rw [hout] at hy
            have hxy : x = y := by simpa using hy
            subst hxy
            exact hdup

/-- C2: after `remove_redundant_signal`, for `keep = first` as well as
`keep = last`, no two consecutive non-none signals in the output are
equal: the emitted non-none signal sequence strictly alternates between
the positive and the negative signal value. -/
theorem signal_alternation (keep : Keep) (xs : List Sig)
    (hx : ∀ x ∈ xs, x ≠ Sig.e) :
    List.Chain' (· ≠ ·)
      ((remove_redundant_signal keep xs).filter (· ≠ Sig.n)) := by
  cases keep with
  | first => exact (removeRedundantAux_chain xs none hx).1
  | last =>
      have hrev : ∀ x ∈ xs.reverse, x ≠ Sig.e := by
        intro x hxm
        exact hx x (List.mem_reverse.mp hxm)
      have hchain := (removeRedundantAux_chain xs.reverse none hrev).1
      have : List.Chain' (· ≠ ·)
          (((removeRedundantAux none xs.reverse).filter (· ≠ Sig.n)).reverse) := by
        rw [List.chain'_reverse]
        exact hchain.imp (fun _ _ h => Ne.symm h)
      simpa [remove_redundant_signal, List.filter_reverse] using this

/-- Witness for C2 at the concrete column [b, b, s, s, b] with
keep = first. -/
theorem signal_alternation_witness :
    List.Chain' (· ≠ ·)
      ((remove_redundant_signal Keep.first
        [Sig.b, Sig.b, Sig.s, Sig.s, Sig.b]).filter (· ≠ Sig.n)) :=
  signal_alternation Keep.first [Sig.b, Sig.b, Sig.s, Sig.s, Sig.b]
    (by intro x hx; fin_cases hx <;> simp)

/-- Per-row semantics of `assign_condition_value(df, column,
condition_dict, value_dict, default_value)` (bc_technical_analysis.py,
lines 1319-1349).  `filter_idx` evaluates every condition on the
unmodified dataframe; the assignment loop then walks the value dictionary
in declaration order and sets the column for each matching row set, each
assignment overwriting whatever an earlier key stored.  Row by row that
is a fold over the (condition, value) pairs. -/
def assign_condition_value {ρ α : Type} (rules : List ((ρ → Bool) × α))
    (defaultVal : α) (r : ρ) : α :=
  rules.foldl (fun acc rule => if rule.1 r then rule.2 else acc) defaultVal

/-- Two-rule table whose conditions overlap: the declaration-order first
rule assigns `u`, the second assigns `d`; the row value 3 satisfies
both. -/
def demoRules : List ((ℚ → Bool) × Trend) :=
  [(fun x => decide (x > 0), Trend.u), (fun x => decide (x < 5), Trend.d)]

/-- C7 counterexample: on a row satisfying both conditions of
`demoRules`, `assign_condition_value` returns the value of the LAST
matching condition (`d`), not that of the first (`u`) — and the second
rule is no overriding wave rule, it assigns `d`, not `n`. -/
theorem assign_condition_first_match_cex :
    assign_condition_value demoRules Trend.n 3 = Trend.d ∧
    Trend.d ≠ Trend.u ∧ Trend.d ≠ Trend.n := by
  refine ⟨?_, by decide, by decide⟩
  norm_num [assign_condition_value, demoRules]

theorem foldl_rules_no_match {ρ α : Type} (r : ρ) (v : α)
    (post : List ((ρ → Bool) × α)) (hpost : ∀ rule ∈ post, rule.1 r = false) :
    post.foldl (fun acc rule => if rule.1 r then rule.2 else acc) v = v := by
  induction post with
  | nil => rfl
  | cons q rest ih =>
      have hq : q.1 r = false := hpost q (by simp)
      have hrest : ∀ rule ∈ rest, rule.1 r = false :=
        fun rule hm => hpost rule (by simp [hm])
      simp only [List.foldl_cons, hq]
      simpa using ih hrest

/-- C7 (amended): in `assign_condition_value`, the LAST matching
condition in declaration order determines the assigned value; a later
matching rule overrides any earlier assignment, whatever label the
earlier rule had assigned. -/
theorem assign_condition_last_match {ρ α : Type}
    (pre post : List ((ρ → Bool) × α)) (c : ρ → Bool) (v : α)
    (defaultVal : α) (r : ρ) (hc : c r = true)
    (hpost : ∀ rule ∈ post, rule.1 r = false) :
    assign_condition_value (pre ++ (c, v) :: post) defaultVal r = v := by
  unfold assign_condition_value
  rw [List.foldl_append, List.foldl_cons]
  simp only [hc, if_true]
  exact foldl_rules_no_match r v post hpost

/-- Witness for C7 (amended): a two-rule table where both conditions
hold; the later rule's value wins. -/
theorem assign_condition_last_match_witness :
    assign_condition_value
      ([(fun _ => true, Trend.u)] ++ ((fun _ => true, Trend.d)) :: [])
      Trend.n (0 : ℚ) = Trend.d :=
  assign_condition_last_match [(fun _ => true, Trend.u)] []
    (fun _ => true) Trend.d Trend.n 0 rfl (by simp)

/-- Round half to even (round-half-even) of a rational to an integer:
the rounding used by pandas Series.round. -/
def roundHalfEven (q : ℚ) : ℤ :=
  if q - ⌊q⌋ < 1/2 then ⌊q⌋
  else if q - ⌊q⌋ > 1/2 then ⌊q⌋ + 1
  else if ⌊q⌋ % 2 = 0 then ⌊q⌋ else ⌊q⌋ + 1

/-- pandas Series.round(2). -/
def round2 (q : ℚ) : ℚ := (roundHalfEven (q * 100) : ℚ) / 100

/-- The composite term-trend condition table of `calculate_ta_signal`
(bc_technical_analysis.py, lines 1078-1087): score above 0.1 is `u`,
score below -0.1 is `d`, default `n`. -/
def term_trend_rules : List ((ℚ → Bool) × Trend) :=
  [(fun sc => decide (sc > 1/10), Trend.u),
   (fun sc => decide (sc < -(1/10)), Trend.d)]

/-- Trend label replacement {u: 1, d: -1, n: 0} (line 1090). -/
def trendToNum : Trend → ℚ
  | Trend.u => 1
  | Trend.d => -1
  | Trend.n => 0

/-- Output columns of the composite-trend/signal part of
`calculate_ta_signal`. -/
structure TaSignalResult where
  trend : List Trend
  trendDay : List ℚ
  signal : List Sig

/-- The composite-trend and signal section of `calculate_ta_signal`
(bc_technical_analysis.py, lines 1069-1171), as a function of the
composite trend-score column: the score is rounded to two decimals, the
trend label assigned by the threshold table, the trend-day column is
`sda` over the label mapped to 1, -1, 0 with `zero_as = 1`, and the signal
column is set to the empty string for every row — the block that would
derive `b`/`s` signals (lines 1137-1169) is commented out in the source,
so no other value is ever written to it. -/
def calculate_ta_signal (scores : List ℚ) : TaSignalResult :=
  let rounded := scores.map round2
  let trend := rounded.map (assign_condition_value term_trend_rules Trend.n)
  { trend := trend,
    trendDay := sda (some 1) false (trend.map trendToNum),
    signal := scores.map (fun _ => Sig.e) }

/-- C1 counterexample: for the score series [0, 1] the composite trend
turns up at bar 1 and the trend-day streak counter first reaches +1
there, yet the signal column holds the empty string at every bar — never
`b`, and not even the none-signal `n`. -/
theorem calculate_ta_signal_cex :
    (calculate_ta_signal [0, 1]).trend = [Trend.n, Trend.u] ∧
    (calculate_ta_signal [0, 1]).trendDay = [0, 1] ∧
    (calculate_ta_signal [0, 1]).signal = [Sig.e, Sig.e] ∧
    Sig.e ≠ Sig.b ∧ Sig.e ≠ Sig.n := by
  refine ⟨?_, ?_, ?_, by decide, by decide⟩ <;>
    norm_num [calculate_ta_signal, round2, roundHalfEven,
      assign_condition_value, term_trend_rules, trendToNum,
      sda, sdaAux, sdaStep]

/-- C1 (amended): the signal column produced by `calculate_ta_signal` is
constantly the empty string; no `b` or `s` (and no `n`) is ever emitted,
at any bar, for any input score series. -/
theorem calculate_ta_signal_no_emission (scores : List ℚ) (i : ℕ)
    (h : i < (calculate_ta_signal scores).signal.length) :
    (calculate_ta_signal scores).signal.get ⟨i, h⟩ = Sig.e := by
  simp [calculate_ta_signal]

/-- Witness for C1 (amended) at the score series [0, 1], bar 1. -/
theorem calculate_ta_signal_no_emission_witness :
    (calculate_ta_signal [0, 1]).signal.get
      ⟨1, by norm_num [calculate_ta_signal]⟩ = Sig.e :=
  calculate_ta_signal_no_emission [0, 1] 1 (by norm_num [calculate_ta_signal])

/-- Python int() applied to a rational: truncation toward zero. -/
def pyInt (q : ℚ) : ℤ := if 0 ≤ q then ⌊q⌋ else -⌊-q⌋

/-- Brick count of `add_renko_features` (bc_technical_analysis.py,
line 3375): `bricks = int((close - close_p1) / brick_size)`, where
`close_p1` is the close of the last emitted brick. -/
def renkoBricks (close closeP1 brickSize : ℚ) : ℤ :=
  pyInt ((close - closeP1) / brickSize)

/-- C5 counterexample: for a downward move of one and a half bricks
(close 7, last brick close 10, brick size 2) the source computes
`int(-1.5) = -1`, while the floor is -2: the brick count is truncated
toward zero, not rounded toward negative infinity. -/
theorem renko_bricks_floor_cex :
    renkoBricks 7 10 2 = -1 ∧ ⌊(((7:ℚ) - 10) / 2)⌋ = -2 ∧
    (-1 : ℤ) ≠ -2 := by
  refine ⟨?_, by norm_num, by decide⟩
  norm_num [renkoBricks, pyInt]

/-- C5 (amended): the brick count is the quotient truncated toward zero:
it equals the floor exactly for moves with non-negative quotient
(close at or above the last brick close, positive brick size), and the
ceiling for negative quotients. -/
theorem renko_bricks_trunc (close closeP1 brickSize : ℚ)
    (hb : 0 < brickSize) :
    renkoBricks close closeP1 brickSize =
      if closeP1 ≤ close then ⌊(close - closeP1) / brickSize⌋
      else ⌈(close - closeP1) / brickSize⌉ := by
  unfold renkoBricks pyInt
  by_cases hc : closeP1 ≤ close
  · rw [if_pos hc, if_pos]
    exact div_nonneg (by linarith) (le_of_lt hb)
  · rw [if_neg hc, if_neg, Int.floor_neg, neg_neg]
    rw [not_le]
    apply div_neg_of_neg_of_pos _ hb
    linarith [not_le.mp hc]

/-- Witness for C5 (amended) at close 12, last brick close 10, brick
size 2. -/
theorem renko_bricks_trunc_witness :
    renkoBricks 12 10 2 =
      if (10:ℚ) ≤ 12 then ⌊(((12:ℚ) - 10) / 2)⌋
      else ⌈(((12:ℚ) - 10) / 2)⌉ :=
  renko_bricks_trunc 12 10 2 (by norm_num)

/-- One OHLC row as read by the PSAR and ATR/ADX calculators (open and
volume are not consulted by them). -/
structure Bar where
  high : ℚ
  low : ℚ
  close : ℚ
deriving DecidableEq, Repr

/-- Carried state of the `add_psar_features` loop
(bc_technical_analysis.py, lines 3206-3211): trend direction,
acceleration factor, extreme high of the up trend, extreme low of the
down trend. -/
structure PsarState where
  upTrend : Bool
  af : ℚ
  upHigh : ℚ
  downLow : ℚ
deriving DecidableEq, Repr

/-- Per-bar result of the `add_psar_features` loop: the stored psar
value, whether this bar reversed the trend, and the trend direction
after the bar (equal to the direction during the bar when there is no
reversal). -/
structure PsarOut where
  psar : ℚ
  reversal : Bool
  upTrend : Bool
deriving DecidableEq, Repr

/-- One iteration of the `add_psar_features` loop
(bc_technical_analysis.py, lines 3212-3266).  `b2`, `b1`, `b` are the
bars at positions i-2, i-1, i; `prevPsar` is the psar stored at i-1.
Uptrend: project the stop, reverse when the bar's low crosses it
(new psar = the up-trend extreme high); otherwise grow the extreme/af on
a new high, then clamp the projection first against the low two bars
back, else against the low one bar back.  Downtrend is the mirror
image. -/
def psarStep (step maxStep : ℚ) (b2 b1 b : Bar) (prevPsar : ℚ)
    (st : PsarState) : PsarOut × PsarState :=
  if st.upTrend then
    let proj := prevPsar + st.af * (st.upHigh - prevPsar)
    if b.low < proj then
      ({ psar := st.upHigh, reversal := true, upTrend := false },
       { upTrend := false, af := step, upHigh := st.upHigh,
         downLow := b.low })
    else
      let st2 := if b.high > st.upHigh then
          { upTrend := true, af := min (st.af + step) maxStep,
            upHigh := b.high, downLow := st.downLow }
        else { st with upTrend := true }
      let p := if b2.low < proj then b2.low
        else if b1.low < proj then b1.low else proj
      ({ psar := p, reversal := false, upTrend := true }, st2)
  else
    let proj := prevPsar - st.af * (prevPsar - st.downLow)
    if b.high > proj then
      ({ psar := st.downLow, reversal := true, upTrend := true },
       { upTrend := true, af := step, upHigh := b.high,
         downLow := st.downLow })
    else
      let st2 := if b.low < st.downLow then
          { upTrend := false, af := min (st.af + step) maxStep,
            upHigh := st.upHigh, downLow := b.low }
        else { st with upTrend := false }
      let p := if b2.high > proj then b2.high
        else if b1.high > proj then b1.high else proj
      ({ psar := p, reversal := false, upTrend := false }, st2)

/-- Tail of the `add_psar_features` loop from position i >= 2 on:
`b2`, `b1` are the two preceding bars, `prevPsar` the psar stored at the
preceding bar. -/
def psarAux (step maxStep : ℚ) (b2 b1 : Bar) (prevPsar : ℚ)
    (st : PsarState) : List Bar → List PsarOut
  | [] => []
  | b :: rest =>
      let r := psarStep step maxStep b2 b1 b prevPsar st
      r.1 :: psarAux step maxStep b1 b r.1.psar r.2 rest

/-- `add_psar_features(df, step=0.02, max_step=0.10)`
(bc_technical_analysis.py, lines 3180-3266).  The psar column is seeded
with the close price (the first two bars keep it), the state starts as
up trend with af = step, extreme high/low from bar 0, and the loop runs
from position 2. -/
def psarRun (step maxStep : ℚ) : List Bar → List PsarOut
  | [] => []
  | [b0] => [{ psar := b0.close, reversal := false, upTrend := true }]
  | b0 :: b1 :: rest =>
      { psar := b0.close, reversal := false, upTrend := true } ::
      { psar := b1.close, reversal := false, upTrend := true } ::
      psarAux step maxStep b0 b1 b1.close
        { upTrend := true, af := step, upHigh := b0.high,
          downLow := b0.low } rest

theorem psarAux_length (step maxStep : ℚ) (bars : List Bar) :
    ∀ (b2 b1 : Bar) (prevPsar : ℚ) (st : PsarState),
    (psarAux step maxStep b2 b1 prevPsar st bars).length = bars.length := by
  induction bars with
  | nil => intro b2 b1 prevPsar st; rfl
  | cons b rest ih =>
      intro b2 b1 prevPsar st
      simp [psarAux, ih]

theorem psarRun_length (step maxStep : ℚ) (bars : List Bar) :
    (psarRun step maxStep bars).length = bars.length := by
  match bars with
  | [] => rfl
  | [b0] => rfl
  | b0 :: b1 :: rest => simp [psarRun, psarAux_length]

theorem psarStep_no_reversal_bound (step maxStep : ℚ) (b2 b1 b : Bar)
    (prevPsar : ℚ) (st : PsarState)
    (hrev : (psarStep step maxStep b2 b1 b prevPsar st).1.reversal = false) :
    ((psarStep step maxStep b2 b1 b prevPsar st).1.upTrend = true →
      (psarStep step maxStep b2 b1 b prevPsar st).1.psar ≤ b2.low) ∧
    ((psarStep step maxStep b2 b1 b prevPsar st).1.upTrend = false →
      b2.high ≤ (psarStep step maxStep b2 b1 b prevPsar st).1.psar) := by
  unfold psarStep at hrev ⊢
  by_cases hup : st.upTrend
  · rw [if_pos hup] at hrev ⊢
    by_cases hcross : b.low < prevPsar + st.af * (st.upHigh - prevPsar)
    · rw [if_pos hcross] at hrev
      exact absurd hrev (by simp)
    · rw [if_neg hcross] at hrev ⊢
      simp only
      refine ⟨?_, by intro hfalse; exact absurd hfalse (by simp)⟩
      intro _
      by_cases h2 : b2.low < prevPsar + st.af * (st.upHigh - prevPsar)
      · rw [if_pos h2]
      · rw [if_neg h2]
        by_cases h1 : b1.low < prevPsar + st.af * (st.upHigh - prevPsar)
        · rw [if_pos h1]
          linarith [not_lt.mp h2]
        · rw [if_neg h1]
          exact not_lt.mp h2
  · rw [if_neg hup] at hrev ⊢
    by_cases hcross : b.high > prevPsar - st.af * (prevPsar - st.downLow)
    · rw [if_pos hcross] at hrev
      exact absurd hrev (by simp)
    · rw [if_neg hcross] at hrev ⊢
      simp only
      refine ⟨by intro hfalse; exact absurd hfalse (by simp), ?_⟩
      intro _
      by_cases h2 : b2.high > prevPsar - st.af * (prevPsar - st.downLow)
      · rw [if_pos h2]
      · rw [if_neg h2]
        by_cases h1 : b1.high > prevPsar - st.af * (prevPsar - st.downLow)
        · rw [if_pos h1]
          linarith [not_lt.mp h2]
        · rw [if_neg h1]
          exact not_lt.mp h2

theorem psarAux_get_step (step maxStep : ℚ) (rest : List Bar) :
    ∀ (b2 b1 : Bar) (prevPsar : ℚ) (st : PsarState) (t : ℕ)
      (h : t < rest.length),
    ∃ (prev2 : ℚ) (st2 : PsarState),
      (psarAux step maxStep b2 b1 prevPsar st rest).get
          ⟨t, by rw [psarAux_length]; exact h⟩ =
        (psarStep step maxStep ((b2 :: b1 :: rest).get ⟨t, by simp; omega⟩)
          ((b2 :: b1 :: rest).get ⟨t + 1, by simp; omega⟩)
          (rest.get ⟨t, h⟩) prev2 st2).1 := by
  induction rest with
  | nil => intro b2 b1 prevPsar st t h; simp at h
  | cons b tail ih =>
      intro b2 b1 prevPsar st t h
      cases t with
      | zero =>
          refine ⟨prevPsar, st, ?_⟩
          simp [psarAux]
      | succ u =>
          have hu : u < tail.length := by simpa using h
          rcases ih b1 b
            (psarStep step maxStep b2 b1 b prevPsar st).1.psar
            (psarStep step maxStep b2 b1 b prevPsar st).2 u hu with
            ⟨prev2, st2, heq⟩
          refine ⟨prev2, st2, ?_⟩
          simpa [psarAux] using heq

/-- C6 (amended): at every continuing (non-reversal) bar t >= 2, the
psar value written by `add_psar_features` is at or below the low of bar
t-2 in an uptrend, and at or above the high of bar t-2 in a downtrend.
(The analogous bound against bar t-1 does NOT hold in general, because
the source clamps against the bar-(t-2) extreme first and stops there:
see the counterexample.) -/
theorem psar_no_reversal_bound (step maxStep : ℚ) (bars : List Bar)
    (t : ℕ) (h : t + 2 < bars.length)
    (hrev : ((psarRun step maxStep bars).get
      ⟨t + 2, by rw [psarRun_length]; exact h⟩).reversal = false) :
    (((psarRun step maxStep bars).get
        ⟨t + 2, by rw [psarRun_length]; exact h⟩).upTrend = true →
      ((psarRun step maxStep bars).get
        ⟨t + 2, by rw [psarRun_length]; exact h⟩).psar ≤
        (bars.get ⟨t, by omega⟩).low) ∧
    (((psarRun step maxStep bars).get
        ⟨t + 2, by rw [psarRun_length]; exact h⟩).upTrend = false →
      (bars.get ⟨t, by omega⟩).high ≤
        ((psarRun step maxStep bars).get
          ⟨t + 2, by rw [psarRun_length]; exact h⟩).psar) := by
  match bars, h with
  | b0 :: b1 :: rest, h =>
      have hrest : t < rest.length := by simpa using h
      rcases psarAux_get_step step maxStep rest b0 b1 b1.close
          { upTrend := true, af := step, upHigh := b0.high,
            downLow := b0.low } t hrest with ⟨prev2, st2, heq⟩
      have hget : (psarRun step maxStep (b0 :: b1 :: rest)).get
          ⟨t + 2, by rw [psarRun_length]; exact h⟩ =
          (psarAux step maxStep b0 b1 b1.close
            { upTrend := true, af := step, upHigh := b0.high,
              downLow := b0.low } rest).get
            ⟨t, by rw [psarAux_length]; exact hrest⟩ := by
        simp [psarRun]
      rw [hget] at hrev ⊢
      rw [heq] at hrev ⊢
      exact psarStep_no_reversal_bound step maxStep _ _ _ prev2 st2 hrev

/-- The three-bar series exhibiting the C6 counterexample. -/
def demoBarsPsar : List Bar :=
  [{ high := 10, low := 9, close := 19/2 },
   { high := 21/2, low := 8, close := 10 },
   { high := 11, low := 10, close := 21/2 }]

/-- C6 counterexample: with the source defaults step = 0.02,
max_step = 0.10, bar 2 of `demoBarsPsar` continues the uptrend without
reversal, yet its psar value 9 lies strictly above the previous bar's
low 8 and strictly below the previous bars' highs — strictly inside the
high/low range of the two preceding bars. -/
theorem psar_boundedness_cex :
    psarRun (1/50) (1/10) demoBarsPsar =
      [{ psar := 19/2, reversal := false, upTrend := true },
       { psar := 10, reversal := false, upTrend := true },
       { psar := 9, reversal := false, upTrend := true }] ∧
    (8 : ℚ) < 9 ∧ (9 : ℚ) < 21/2 := by
  refine ⟨?_, by norm_num, by norm_num⟩
  norm_num [psarRun, psarAux, psarStep, demoBarsPsar]

/-- Witness for C6 (amended) at `demoBarsPsar`, t = 0: bar 2 continues
the uptrend, and its psar 9 is at or below the low of bar 0 (which is
9). -/
theorem psar_no_reversal_bound_witness :
    (((psarRun (1/50) (1/10) demoBarsPsar).get
        ⟨2, by rw [psarRun_length]; norm_num [demoBarsPsar]⟩).upTrend = true →
      ((psarRun (1/50) (1/10) demoBarsPsar).get
        ⟨2, by rw [psarRun_length]; norm_num [demoBarsPsar]⟩).psar ≤
        (demoBarsPsar.get ⟨0, by norm_num [demoBarsPsar]⟩).low) ∧
    (((psarRun (1/50) (1/10) demoBarsPsar).get
        ⟨2, by rw [psarRun_length]; norm_num [demoBarsPsar]⟩).upTrend = false →
      (demoBarsPsar.get ⟨0, by norm_num [demoBarsPsar]⟩).high ≤
        ((psarRun (1/50) (1/10) demoBarsPsar).get
          ⟨2, by rw [psarRun_length]; norm_num [demoBarsPsar]⟩).psar) :=
  psar_no_reversal_bound (1/50) (1/10) demoBarsPsar 0
    (by norm_num [demoBarsPsar])
    (by norm_num [psarRun, psarAux, psarStep, demoBarsPsar])

/-- Row-wise maximum skipping missing values:
pandas df[[...]].max(axis=1). -/
def nanMax (l : List (Option ℚ)) : Option ℚ :=
  l.foldl (fun acc x =>
    match acc, x with
    | none, y => y
    | some a, none => some a
    | some a, some b => some (max a b)) none

/-- True-range column of `add_atr_features` (bc_technical_analysis.py,
lines 4338-4343).  NOTE: the source computes the h_l term as
`df[low] - df[low]` — identically zero — instead of high minus low; the
translation reproduces that faithfully.  h_pc and l_pc read the previous
close and are missing at the first row. -/
def trColumn (df : List Bar) : List ℚ :=
  (List.range df.length).map (fun t =>
    let hl : Option ℚ := (df.get? t).map (fun b => b.low - b.low)
    let hpc : Option ℚ := match t with
      | 0 => none
      | u + 1 => (df.get? u).bind (fun pb =>
          (df.get? (u + 1)).map (fun b => |b.high - pb.close|))
    let lpc : Option ℚ := match t with
      | 0 => none
      | u + 1 => (df.get? u).bind (fun pb =>
          (df.get? (u + 1)).map (fun b => |b.low - pb.close|))
    (nanMax [hl, hpc, lpc]).getD 0)

/-- Modelled from the spec: true range =
max(high − low, |high − prev_close|, |low − prev_close|), to be compared
with the source-derived `trColumn`. -/
def spec_trueRange (df : List Bar) : List ℚ :=
  (List.range df.length).map (fun t =>
    let hl : Option ℚ := (df.get? t).map (fun b => b.high - b.low)
    let hpc : Option ℚ := match t with
      | 0 => none
      | u + 1 => (df.get? u).bind (fun pb =>
          (df.get? (u + 1)).map (fun b => |b.high - pb.close|))
    let lpc : Option ℚ := match t with
      | 0 => none
      | u + 1 => (df.get? u).bind (fun pb =>
          (df.get? (u + 1)).map (fun b => |b.low - pb.close|))
    (nanMax [hl, hpc, lpc]).getD 0)

/-- `sm(series, n, fillna=True).mean()`: rolling mean with window n and
min_periods 0, so the leading positions average however many values are
available. -/
def rollingMeanFill (n : ℕ) (xs : List ℚ) : List ℚ :=
  (List.range xs.length).map (fun t =>
    let w := (xs.take (t + 1)).drop (t + 1 - n)
    w.sum / w.length)

/-- The atr column of `add_atr_features` (bc_technical_analysis.py,
lines 4345-4351): seeded with the filled rolling mean of tr over n bars,
then rewritten in place from position n on by
`atr[i] = (atr[i-1]*13 + tr[i]) / 14` — the smoothing constants are
hardcoded to 13 and 14 in the source whatever n is, and atr[i-1] is the
already rewritten value. -/
def atrColumn (df : List Bar) (n : ℕ) : List ℚ :=
  let tr := trColumn df
  (List.range' n (df.length - n)).foldl
    (fun cur i => cur.set i ((cur.getD (i - 1) 0 * 13 + tr.getD i 0) / 14))
    (rollingMeanFill n tr)

/-- Plus directional movement (bc_technical_analysis.py, lines
2706-2712): `max(high - prev_high, 0)`, NaN at the first row because
`get_min_max` propagates NaN. -/
def pdmColumn (df : List Bar) : List (Option ℚ) :=
  (List.range df.length).map (fun t =>
    match t with
    | 0 => none
    | u + 1 => (df.get? u).bind (fun pb =>
        (df.get? (u + 1)).map (fun b => max (b.high - pb.high) 0)))

/-- Minus directional movement: `max(prev_low - low, 0)`, NaN at the
first row. -/
def mdmColumn (df : List Bar) : List (Option ℚ) :=
  (List.range df.length).map (fun t =>
    match t with
    | 0 => none
    | u + 1 => (df.get? u).bind (fun pb =>
        (df.get? (u + 1)).map (fun b => max (pb.low - b.low) 0)))

/-- Scan implementing `series.ewm(span=n, min_periods=n, adjust=True,
ignore_na=False).mean()` (the `em` helper, bc_technical_analysis.py,
lines 1369-1382).  With weight w = (n-1)/(n+1), the pandas value at
position t is the sum over the defined entries x_j (j <= t) of
w^(t-j) * x_j, divided by the corresponding sum of weights, and is
produced once at least n defined entries have been seen (otherwise NaN);
a NaN entry keeps the running sums decaying without contributing.  The
scan carries those two sums (num, den) and the defined-entry count
(cnt), which reproduces exactly that closed form:
on a defined entry num := w*num + x, den := w*den + 1, cnt := cnt + 1;
on a missing entry num := w*num, den := w*den. -/
def ewmNanAux (w : ℚ) (minp : ℕ) (num den : ℚ) (cnt : ℕ) :
    List (Option ℚ) → List (Option ℚ)
  | [] => []
  | x :: rest =>
      match x with
      | some v =>
          (if minp ≤ cnt + 1 ∧ w * den + 1 ≠ 0
            then some ((w * num + v) / (w * den + 1)) else none) ::
          ewmNanAux w minp (w * num + v) (w * den + 1) (cnt + 1) rest
      | none =>
          (if minp ≤ cnt ∧ w * den ≠ 0
            then some ((w * num) / (w * den)) else none) ::
          ewmNanAux w minp (w * num) (w * den) cnt rest

/-- `em(series, n).mean()` on a column that may hold NaN. -/
def ewmNan (n : ℕ) (xs : List (Option ℚ)) : List (Option ℚ) :=
  ewmNanAux (((n : ℚ) - 1) / ((n : ℚ) + 1)) n 0 0 0 xs

/-- The pdi column of `add_adx_features` (line 2716):
`100 * em(pdm, n).mean() / atr`.  A NaN numerator propagates; division
by a zero atr is modelled as undefined. -/
def pdiColumn (df : List Bar) (n : ℕ) : List (Option ℚ) :=
  let e := ewmNan n (pdmColumn df)
  let atr := atrColumn df n
  (List.range df.length).map (fun t =>
    match (e.get? t).join, atr.get? t with
    | some ev, some a => if a = 0 then none else some (100 * ev / a)
    | _, _ => none)

/-- The mdi column of `add_adx_features` (line 2717):
`100 * em(mdm, n).mean() / atr`. -/
def mdiColumn (df : List Bar) (n : ℕ) : List (Option ℚ) :=
  let e := ewmNan n (mdmColumn df)
  let atr := atrColumn df n
  (List.range df.length).map (fun t =>
    match (e.get? t).join, atr.get? t with
    | some ev, some a => if a = 0 then none else some (100 * ev / a)
    | _, _ => none)

/-- The dx column of `add_adx_features` (line 2720):
`100 * |pdi - mdi| / (pdi + mdi)`, undefined when either operand is NaN
or the denominator is zero. -/
def dxColumn (df : List Bar) (n : ℕ) : List (Option ℚ) :=
  let pdi := pdiColumn df n
  let mdi := mdiColumn df n
  (List.range df.length).map (fun t =>
    match (pdi.get? t).join, (mdi.get? t).join with
    | some p, some m =>
        if p + m = 0 then none else some (100 * |p - m| / (p + m))
    | _, _ => none)

/-- The adx warm-up seed (line 2723): `em(dx, n).mean()`. -/
def adxSeed (df : List Bar) (n : ℕ) : List (Option ℚ) :=
  ewmNan n (dxColumn df n)

/-- One in-place rewrite of the adx loop (lines 2725-2729):
`adx[i] = (adx[i-1]*(n-1) + dx[i]) / n`, NaN when either operand is
NaN. -/
def adxUpdate (n : ℕ) (dx : List (Option ℚ)) (cur : List (Option ℚ))
    (i : ℕ) : Option ℚ :=
  match (cur.get? (i - 1)).join, (dx.get? i).join with
  | some a, some d => some ((a * ((n : ℚ) - 1) + d) / n)
  | _, _ => none

/-- The adx column of `add_adx_features` (bc_technical_analysis.py,
lines 2680-2745): the ewm seed, rewritten in place by the Wilder
recurrence for row indices i = 2n, 2n+1, ..., len(df)-2 (the Python loop
is `range(n*2, len(df)-1)`, which stops one short of the last row). -/
def adxColumn (df : List Bar) (n : ℕ) : List (Option ℚ) :=
  let dx := dxColumn df n
  (List.range' (2 * n) (df.length - 1 - 2 * n)).foldl
    (fun cur i => cur.set i (adxUpdate n dx cur i))
    (adxSeed df n)

/-- The simple average of the defined entries of a column. -/
def nanMean (xs : List (Option ℚ)) : Option ℚ :=
  let vals := xs.filterMap id
  if vals.length = 0 then none else some (vals.sum / (vals.length : ℚ))

/-- The two-bar OHLC input exhibiting the true-range divergence. -/
def demoAtrDf : List Bar :=
  [{ high := 10, low := 9, close := 10 },
   { high := 12, low := 8, close := 10 }]

/-- Three bars exhibiting the hardcoded-smoothing divergence for n = 2. -/
def demoAtr3Df : List Bar :=
  [{ high := 10, low := 9, close := 10 },
   { high := 12, low := 8, close := 10 },
   { high := 13, low := 8, close := 10 }]

/-- C3: evaluation of `add_atr_features` at the failing inputs.  On
`demoAtrDf` the source true range at bar 1 is 2 (its h_l term is
low - low = 0) while the specified true range max(high-low, ...) is 4;
and on `demoAtr3Df` with n = 2 the source recursion at bar 2 yields
(1*13 + 3)/14 = 8/7 instead of the specified
(atr[1]*(n-1) + tr[2])/n = 2. -/
theorem atr_true_range_bug :
    trColumn demoAtrDf = [0, 2] ∧
    spec_trueRange demoAtrDf = [1, 4] ∧
    atrColumn demoAtr3Df 2 = [0, 1, 8/7] ∧
    ((8 : ℚ)/7) ≠
      ((atrColumn demoAtr3Df 2).getD 1 0 * ((2 : ℚ) - 1) +
        (trColumn demoAtr3Df).getD 2 0) / 2 := by
  refine ⟨?_, ?_, ?_, ?_⟩
  · norm_num [trColumn, demoAtrDf, nanMax, List.range_succ]
  · norm_num [spec_trueRange, demoAtrDf, nanMax, List.range_succ]
  · norm_num [atrColumn, trColumn, rollingMeanFill, demoAtr3Df, nanMax,
      List.range_succ, List.range']
  · have h1 : atrColumn demoAtr3Df 2 = [0, 1, 8/7] := by
      norm_num [atrColumn, trColumn, rollingMeanFill, demoAtr3Df, nanMax,
        List.range_succ, List.range']
    have h2 : trColumn demoAtr3Df = [0, 2, 3] := by
      norm_num [trColumn, demoAtr3Df, nanMax, List.range_succ]
    rw [h1, h2]
    norm_num

theorem foldl_set_get_not_mem {α : Type} (f : List α → ℕ → α)
    (l : List ℕ) (j : ℕ) (hj : ∀ i ∈ l, i ≠ j) :
    ∀ (a : List α),
    (l.foldl (fun cur i => cur.set i (f cur i)) a).get? j = a.get? j := by
  induction l with
  | nil => intro a; rfl
  | cons i rest ih =>
      intro a
      rw [List.foldl_cons, ih (fun k hk => hj k (by simp [hk]))]
      exact List.get?_set_ne _ _ (hj i (by simp))

/-- C4 (amended): the adx rewrite loop of `add_adx_features` starts at
row 2n, so every adx value before the 2n-bar warm-up completes is
exactly the ewm seed value, `em(dx, n).mean()` — possibly undefined, and
never touched by the recursive (n-1)/n smoothing.  (The seed is an
exponentially weighted mean, not the simple average named by the
claim: see the counterexample.) -/
theorem adx_warmup_unsmoothed (df : List Bar) (n t : ℕ)
    (ht : t < 2 * n) :
    (adxColumn df n).get? t = (ewmNan n (dxColumn df n)).get? t := by
  unfold adxColumn
  rw [foldl_set_get_not_mem (adxUpdate n (dxColumn df n)) _ t ?_]
  · rfl
  · intro i hi
    have hmem := List.mem_range'_1.mp hi
    omega

/-- C10: the adx rewrite loop runs over `range(n*2, len(df)-1)`, which
stops one row short of the end, so for any dataframe with more than
2n+1 rows the final bar's adx is never rewritten and stays the
exponentially weighted mean of dx at that bar. -/
theorem adx_final_bar_unsmoothed (df : List Bar) (n : ℕ)
    (h : 2 * n + 1 < df.length) :
    (adxColumn df n).get? (df.length - 1) =
      (ewmNan n (dxColumn df n)).get? (df.length - 1) := by
  unfold adxColumn
  rw [foldl_set_get_not_mem (adxUpdate n (dxColumn df n)) _ _ ?_]
  · rfl
  · intro i hi
    have hmem := List.mem_range'_1.mp hi
    omega

/-- Four rising bars used as witness input for the adx loop-range
facts. -/
def demoAdxDf : List Bar :=
  [{ high := 10, low := 9, close := 10 },
   { high := 11, low := 10, close := 11 },
   { high := 12, low := 11, close := 12 },
   { high := 13, low := 12, close := 13 }]

/-- Witness for C4 (amended) at `demoAdxDf` with n = 1, bar 1 < 2n. -/
theorem adx_warmup_unsmoothed_witness :
    (adxColumn demoAdxDf 1).get? 1 =
      (ewmNan 1 (dxColumn demoAdxDf 1)).get? 1 :=
  adx_warmup_unsmoothed demoAdxDf 1 1 (by norm_num)

/-- Witness for C10 at `demoAdxDf` with n = 1 (4 rows > 2n+1 = 3). -/
theorem adx_final_bar_unsmoothed_witness :
    (adxColumn demoAdxDf 1).get? (demoAdxDf.length - 1) =
      (ewmNan 1 (dxColumn demoAdxDf 1)).get? (demoAdxDf.length - 1) :=
  adx_final_bar_unsmoothed demoAdxDf 1 (by norm_num [demoAdxDf])

/-- 28 bars alternating between an up day (high 104, low 102, close 103)
and a down day (high 102, low 100, close 101); with n = 14 this is the
shortest input on which an adx value becomes defined inside the 2n-bar
warm-up window. -/
def adxZigzagDf : List Bar :=
  [{ high := 102, low := 100, close := 101 },
   { high := 104, low := 102, close := 103 },
   { high := 102, low := 100, close := 101 },
   { high := 104, low := 102, close := 103 },
   { high := 102, low := 100, close := 101 },
   { high := 104, low := 102, close := 103 },
   { high := 102, low := 100, close := 101 },
   { high := 104, low := 102, close := 103 },
   { high := 102, low := 100, close := 101 },
   { high := 104, low := 102, close := 103 },
   { high := 102, low := 100, close := 101 },
   { high := 104, low := 102, close := 103 },
   { high := 102, low := 100, close := 101 },
   { high := 104, low := 102, close := 103 },
   { high := 102, low := 100, close := 101 },
   { high := 104, low := 102, close := 103 },
   { high := 102, low := 100, close := 101 },
   { high := 104, low := 102, close := 103 },
   { high := 102, low := 100, close := 101 },
   { high := 104, low := 102, close := 103 },
   { high := 102, low := 100, close := 101 },
   { high := 104, low := 102, close := 103 },
   { high := 102, low := 100, close := 101 },
   { high := 104, low := 102, close := 103 },
   { high := 102, low := 100, close := 101 },
   { high := 104, low := 102, close := 103 },
   { high := 102, low := 100, close := 101 },
   { high := 104, low := 102, close := 103 }]

set_option maxRecDepth 100000 in
theorem adxZz_tr : trColumn adxZigzagDf =
    [0, 3, 3, 3, 3, 3, 3, 3, 3, 3, 3, 3, 3, 3, 3, 3, 3, 3, 3, 3, 3, 3,
     3, 3, 3, 3, 3, 3] := by
  norm_num [trColumn, adxZigzagDf, nanMax, List.range_succ]

set_option maxRecDepth 100000 in
theorem adxZz_atr : atrColumn adxZigzagDf 14 =
    [0, 3/2, 2, 9/4, 12/5, 5/2, 18/7, 21/8, 8/3, 27/10, 30/11, 11/4,
     36/13, 39/14, 549/196, 7725/2744, 108657/38416, 1527789/537824,
     21474729/7529536, 301760085/105413504, 4239121617/1475789056,
     59535948189/20661046784, 835950466809/289254654976,
     11735120033445/4049565169664, 164705255943777/56693912375296,
     2311250064394989/793714773254144, 32427395156897289/11112006825558016,
     454892157516338805/155568095557812224] := by
  have hlen : adxZigzagDf.length = 28 := by norm_num [adxZigzagDf]
  have hseed : rollingMeanFill 14 (trColumn adxZigzagDf) =
      [0, 3/2, 2, 9/4, 12/5, 5/2, 18/7, 21/8, 8/3, 27/10, 30/11, 11/4,
       36/13, 39/14, 3, 3, 3, 3, 3, 3, 3, 3, 3, 3, 3, 3, 3, 3] := by
    rw [adxZz_tr]
    norm_num [rollingMeanFill, List.range_succ]
  simp only [atrColumn]
  rw [hlen, hseed, adxZz_tr]
  norm_num [List.range']

set_option maxRecDepth 100000 in
theorem adxZz_pdm : pdmColumn adxZigzagDf =
    [none, some 2, some 0, some 2, some 0, some 2, some 0, some 2,
     some 0, some 2, some 0, some 2, some 0, some 2, some 0, some 2,
     some 0, some 2, some 0, some 2, some 0, some 2, some 0, some 2,
     some 0, some 2, some 0, some 2] := by
  norm_num [pdmColumn, adxZigzagDf, List.range_succ]

set_option maxRecDepth 100000 in
theorem adxZz_mdm : mdmColumn adxZigzagDf =
    [none, some 0, some 2, some 0, some 2, some 0, some 2, some 0,
     some 2, some 0, some 2, some 0, some 2, some 0, some 2, some 0,
     some 2, some 0, some 2, some 0, some 2, some 0, some 2, some 0,
     some 2, some 0, some 2, some 0] := by
  norm_num [mdmColumn, adxZigzagDf, List.range_succ]

set_option maxRecDepth 100000 in
theorem adxZz_epdm : ewmNan 14 (pdmColumn adxZigzagDf) =
    [none, none, none, none, none, none, none, none, none, none, none,
     none, none, none, some (13/14),
     some (210821133804632528/193353998683384309), some (13/14),
     some (48765588324408678482/44937854708156010721), some (13/14),
     some (11197168186895867444708/10353228955077779874349), some (13/14),
     some (2557372769601331773936902/2370410283023012962827481),
     some (13/14),
     some (581832550916209359346117688/540260120494234527631906789),
     some (13/14),
     some (131997925496895846878419670522/122727636462778335975456309841),
     some (13/14),
     some (29882999897188102780961225099468/27811297684541396461126530425629)]
    := by
  rw [adxZz_pdm]
  norm_num [ewmNan, ewmNanAux]

set_option maxRecDepth 100000 in
theorem adxZz_emdm : ewmNan 14 (mdmColumn adxZigzagDf) =
    [none, none, none, none, none, none, none, none, none, none, none,
     none, none, none, some (15/14),
     some (175886863562136090/193353998683384309), some (15/14),
     some (41110121091903342960/44937854708156010721), some (15/14),
     some (9509289723259692303990/10353228955077779874349), some (15/14),
     some (2183447796444694151718060/2370410283023012962827481),
     some (15/14),
     some (498687690072259695917695890/540260120494234527631906789),
     some (15/14),
     some (113457347428660825072492949160/122727636462778335975456309841),
     some (15/14),
     some (25739595471894690141291835751790/27811297684541396461126530425629)]
    := by
  rw [adxZz_mdm]
  norm_num [ewmNan, ewmNanAux]

set_option maxRecDepth 100000 in
theorem adxZz_pdi : pdiColumn adxZigzagDf 14 =
    [none, none, none, none, none, none, none, none, none, none, none,
     none, none, none, some (18200/549),
     some (2313972764639646627328/59746385593165751481),
     some (3567200/108657),
     some (2622730377498677309590316800/68655560106718963463425869),
     some (699171200/21474729),
     some (2146059515378218673574902794240/56803477263795127936269882903),
     some (137037555200/4239121617),
     some (5283799843686076881001604408602316800/141124623796730926049572291761381909),
     some (26859360819200/835950466809),
     some (47123376655340745458564116386108628336640/1268003472656660243966683154875760511621),
     some (5264434720563200/164705255943777),
     some (10476870350578608008723072549617311025114316800/283654257677641229039883250697824592191786749),
     some (1031829205230387200/32427395156897289),
     some (92976827671197032774812140323579762079177325936640/2530228241410038720785877139401961113103683846669)]
    := by
  have hlen : adxZigzagDf.length = 28 := by norm_num [adxZigzagDf]
  simp only [pdiColumn, hlen, adxZz_epdm, adxZz_atr]
  norm_num [List.range_succ]

set_option maxRecDepth 100000 in
theorem adxZz_mdi : mdiColumn adxZigzagDf 14 =
    [none, none, none, none, none, none, none, none, none, none, none,
     none, none, none, some (7000/183),
     some (643511404819335241280/19915461864388583827),
     some (1372000/36219),
     some (737000325537727450803968000/22885186702239654487808623),
     some (268912000/7158243),
     some (6682717001866629784836127206400/208279416633915469099656237311),
     some (52706752000/1413040539),
     some (1503743902425517824573934387923968000/47041541265576975349857430587127303),
     some (10330523392000/278650155603),
     some (13463122001712123892792088033118703206400/422667824218886747988894384958586837207),
     some (2024782584832000/54901751981259),
     some (3001759092945205485710534213795119625043968000/94551419225880409679961083565941530730595583),
     some (396857386627072000/10809131718965763),
     some (26695065653274293206226388856424908491991279206400/843409413803346240261959046467320371034561282223)]
    := by
  have hlen : adxZigzagDf.length = 28 := by norm_num [adxZigzagDf]
  simp only [mdiColumn, hlen, adxZz_emdm, adxZz_atr]
  norm_num [List.range_succ]

set_option maxRecDepth 100000 in
theorem adxZz_dx : dxColumn adxZigzagDf 14 =
    [none, none, none, none, none, none, none, none, none, none, none,
     none, none, none, some (50/7),
     some (1746713512124821900/193353998683384309), some (50/7),
     some (382773361625266776100/44937854708156010721), some (50/7),
     some (84393923181808757035900/10353228955077779874349), some (50/7),
     some (18696248657831881110942100/2370410283023012962827481),
     some (50/7),
     some (4157243042197483171421089900/540260120494234527631906789),
     some (50/7),
     some (927028903411751090296336068100/122727636462778335975456309841),
     some (50/7),
     some (207170221264670631983469467383900/27811297684541396461126530425629)]
    := by
  have hlen : adxZigzagDf.length = 28 := by norm_num [adxZigzagDf]
  simp only [dxColumn, hlen, adxZz_pdi, adxZz_mdi]
  norm_num [List.range_succ, abs_of_pos]

set_option maxRecDepth 100000 in
theorem adxZz_adx : adxColumn adxZigzagDf 14 =
    [none, none, none, none, none, none, none, none, none, none, none,
     none, none, none, none, none, none, none, none, none, none, none,
     none, none, none, none, none,
     some (276117600270172350957670272727432329634904969302985485329016738008845418371460778506405522927882829261045237478488897875802030875135583429692046422475928888929871396043179428975/36881120689249845253799012049595687895702447539964104775200603552850868178388068498181906456844729607532750288977142648671369815799402721780222746226910406885305041202878084834)]
    := by
  have hlen : adxZigzagDf.length = 28 := by norm_num [adxZigzagDf]
  have hrange : List.range' (2 * 14) (adxZigzagDf.length - 1 - 2 * 14) =
      [] := by rw [hlen]; rfl
  simp only [adxColumn, hrange, List.foldl_nil, adxSeed, adxZz_dx]
  norm_num [ewmNan, ewmNanAux]

set_option maxRecDepth 100000 in
/-- C4 counterexample: on `adxZigzagDf` with n = 14, the adx value at
bar 27 (inside the first 2n bars) is defined but differs from the simple
average of the dx values — the warm-up seed is the exponentially
weighted mean `em(dx, 14).mean()`, not a simple average. -/
theorem adx_seed_simple_average_cex :
    (((adxColumn adxZigzagDf 14).get? 27).join).isSome = true ∧
    ((adxColumn adxZigzagDf 14).get? 27).join ≠
      nanMean (dxColumn adxZigzagDf 14) := by
  have hmean : nanMean (dxColumn adxZigzagDf 14) =
      some (310428392649528179002005143815187462747769311071973045338751691422651982978693965129163581744948191826958862550216852159486171096454008121459855743209075927734375/40888889532463827831585484050565599289354936060621184947999907275453528889190966187586271085366786647736986726106234266601580464991598038429877684154309743951007) := by
    rw [adxZz_dx]
    norm_num [nanMean, List.filterMap_cons]
  have hget : ((adxColumn adxZigzagDf 14).get? 27).join =
      some (276117600270172350957670272727432329634904969302985485329016738008845418371460778506405522927882829261045237478488897875802030875135583429692046422475928888929871396043179428975/36881120689249845253799012049595687895702447539964104775200603552850868178388068498181906456844729607532750288977142648671369815799402721780222746226910406885305041202878084834) := by
    rw [adxZz_adx]; rfl
  rw [hget, hmean]
  refine ⟨rfl, ?_⟩
  simp only [Ne, Option.some.injEq]
  norm_num
